import Mathlib

/-!
Shallow embedding of the `datatrans` webhook-verification middleware
(`ValidateWebhook` and `extractTimeAndHash`) together with the pieces of the
Go standard library it relies on: `crypto/sha256`, `crypto/hmac`,
`crypto/subtle.ConstantTimeCompare` and `encoding/hex.DecodeString`.

Strings and byte slices are modelled as `List Nat` (each element one byte).
Go operations that can panic (string slicing with `low > high`) are modelled
with `Option`: `none` is a runtime panic.
-/

set_option maxRecDepth 1000000
set_option maxHeartbeats 2000000

namespace Datatrans

/-- Reduce a machine word modulo 2^32, as Go `uint32` arithmetic does. -/
def w32 (n : Nat) : Nat := n % 4294967296

/-- Right rotation of a 32-bit word by `n` bits. -/
def rotr (n x : Nat) : Nat := w32 ((x >>> n) ||| (x <<< (32 - n)))

/-- Big-endian bytes of a 32-bit word (`binary.BigEndian.PutUint32`). -/
def u32be (n : Nat) : List Nat := [24, 16, 8, 0].map (fun s => (n >>> s) % 256)

/-- Big-endian bytes of a 64-bit word (`binary.BigEndian.PutUint64`). -/
def u64be (n : Nat) : List Nat := [56, 48, 40, 32, 24, 16, 8, 0].map (fun s => (n >>> s) % 256)

/-- The SHA-256 round constants `_K` of `crypto/sha256`. -/
def sha256K : List Nat :=
  [1116352408, 1899447441, 3049323471, 3921009573, 961987163, 1508970993, 2453635748, 2870763221,
   3624381080, 310598401, 607225278, 1426881987, 1925078388, 2162078206, 2614888103, 3248222580,
   3835390401, 4022224774, 264347078, 604807628, 770255983, 1249150122, 1555081692, 1996064986,
   2554220882, 2821834349, 2952996808, 3210313671, 3336571891, 3584528711, 113926993, 338241895,
   666307205, 773529912, 1294757372, 1396182291, 1695183700, 1986661051, 2177026350, 2456956037,
   2730485921, 2820302411, 3259730800, 3345764771, 3516065817, 3600352804, 4094571909, 275423344,
   430227734, 506948616, 659060556, 883997877, 958139571, 1322822218, 1537002063, 1747873779,
   1955562222, 2024104815, 2227730452, 2361852424, 2428436474, 2756734187, 3204031479, 3329325298]

/-- The SHA-256 initial hash state `init0 .. init7` of `crypto/sha256`. -/
def sha256H0 : List Nat :=
  [1779033703, 3144134277, 1013904242, 2773480762, 1359893119, 2600822924, 528734635, 1541459225]

/-- SHA-256 message padding: append `0x80`, zeros, and the 64-bit big-endian
bit length, so the total length is a multiple of 64 bytes. -/
def sha256Pad (msg : List Nat) : List Nat :=
  msg ++ 128 :: List.replicate ((119 - msg.length % 64) % 64) 0 ++ u64be (8 * msg.length)

/-- Split a byte list into 64-byte blocks; the fuel argument (any bound on
the number of blocks, structurally decreasing) keeps the recursion
kernel-reducible. -/
def toBlocksF : Nat → List Nat → List (List Nat)
  | _, [] => []
  | 0, l => [l]
  | fuel + 1, l => l.take 64 :: toBlocksF fuel (l.drop 64)

/-- Split a byte list into 64-byte blocks. -/
def toBlocks (l : List Nat) : List (List Nat) := toBlocksF l.length l

/-- Group bytes four at a time into big-endian 32-bit words. -/
def bytesToWords : List Nat → List Nat
  | a :: b :: c :: d :: rest => (((a * 256 + b) * 256 + c) * 256 + d) :: bytesToWords rest
  | _ => []

/-- SHA-256 small sigma-0 scheduling function. -/
def sSig0 (x : Nat) : Nat := (rotr 7 x) ^^^ (rotr 18 x) ^^^ (x >>> 3)

/-- SHA-256 small sigma-1 scheduling function. -/
def sSig1 (x : Nat) : Nat := (rotr 17 x) ^^^ (rotr 19 x) ^^^ (x >>> 10)

/-- SHA-256 big sigma-0 compression function. -/
def bSig0 (x : Nat) : Nat := (rotr 2 x) ^^^ (rotr 13 x) ^^^ (rotr 22 x)

/-- SHA-256 big sigma-1 compression function. -/
def bSig1 (x : Nat) : Nat := (rotr 6 x) ^^^ (rotr 11 x) ^^^ (rotr 25 x)

/-- SHA-256 choice function: bits of `y` where `x` is set, of `z` elsewhere. -/
def ch (x y z : Nat) : Nat := (x &&& y) ^^^ ((x ^^^ 4294967295) &&& z)

/-- SHA-256 majority function. -/
def maj (x y z : Nat) : Nat := (x &&& y) ^^^ (x &&& z) ^^^ (y &&& z)

/-- Append the next word of the SHA-256 message schedule. -/
def scheduleStep (ws : List Nat) : List Nat :=
  let i := ws.length
  ws ++ [w32 (sSig1 (ws.getD (i - 2) 0) + ws.getD (i - 7) 0 +
              sSig0 (ws.getD (i - 15) 0) + ws.getD (i - 16) 0)]

/-- One SHA-256 compression round on the state `[a,b,c,d,e,f,g,h]`,
with `kw` the round constant paired with the schedule word. -/
def compressStep (st : List Nat) (kw : Nat × Nat) : List Nat :=
  match st with
  | [a, b, c, d, e, f, g, h] =>
    let t1 := w32 (h + bSig1 e + ch e f g + kw.1 + kw.2)
    let t2 := w32 (bSig0 a + maj a b c)
    [w32 (t1 + t2), a, b, c, w32 (d + t1), e, f, g]
  | other => other

/-- Process one 64-byte block into the running hash state. -/
def processBlock (hs : List Nat) (block : List Nat) : List Nat :=
  let ws := Nat.repeat scheduleStep 48 (bytesToWords block)
  let st := (sha256K.zip ws).foldl compressStep hs
  (hs.zip st).map (fun p => w32 (p.1 + p.2))

/-- SHA-256 of a byte list, as `crypto/sha256` computes it. -/
def sha256 (msg : List Nat) : List Nat :=
  (((toBlocks (sha256Pad msg)).foldl processBlock sha256H0).map u32be).flatten

/-- HMAC-SHA-256 as `crypto/hmac` computes it with a 64-byte block size:
a key longer than 64 bytes is first hashed, the key is zero-padded to
64 bytes, and the digest is `H((k XOR opad) ++ H((k XOR ipad) ++ msg))`. -/
def hmacSha256 (key msg : List Nat) : List Nat :=
  let k1 := if 64 < key.length then sha256 key else key
  let k2 := k1 ++ List.replicate (64 - k1.length) 0
  sha256 ((k2.map (fun b => b ^^^ 92)) ++ sha256 ((k2.map (fun b => b ^^^ 54)) ++ msg))

/-- The loop of `crypto/subtle.ConstantTimeCompare`, instrumented with a step
count: `v` accumulates the OR of the XORs of corresponding bytes, and the
second component counts loop iterations (one per byte position examined). -/
def ctcLoop : List Nat → List Nat → Nat → Nat × Nat
  | a :: x, b :: y, v =>
    let r := ctcLoop x y (v ||| (a ^^^ b))
    (r.1, r.2 + 1)
  | _, _, v => (v, 0)

/-- Instrumented `crypto/subtle.ConstantTimeCompare` (as called by
`crypto/hmac.Equal`): result plus the number of loop iterations executed.
Operands of unequal length short-circuit to `false` with zero iterations. -/
def constantTimeCompareT (x y : List Nat) : Bool × Nat :=
  if x.length = y.length then ((ctcLoop x y 0).1 == 0, (ctcLoop x y 0).2)
  else (false, 0)

/-- Result of `crypto/subtle.ConstantTimeCompare`, `1` mapped to `true`. -/
def constantTimeCompare (x y : List Nat) : Bool := (constantTimeCompareT x y).1

/-- Value of a hex digit byte, as `encoding/hex.fromHexChar`: digits `0`-`9`,
lowercase `a`-`f` and uppercase `A`-`F`; `none` for any other byte. -/
def fromHexChar (c : Nat) : Option Nat :=
  if 48 ≤ c ∧ c ≤ 57 then some (c - 48)
  else if 97 ≤ c ∧ c ≤ 102 then some (c - 97 + 10)
  else if 65 ≤ c ∧ c ≤ 70 then some (c - 65 + 10)
  else none

/-- Go `encoding/hex.DecodeString` with its error made explicit: decodes
byte pairs left to right; on the first invalid character or on a trailing
odd character it stops, returning the bytes decoded so far and `false`.
On full success it returns all decoded bytes and `true`. -/
def goHexDecodeE : List Nat → List Nat × Bool
  | [] => ([], true)
  | [_] => ([], false)
  | p :: q :: rest =>
    match fromHexChar p, fromHexChar q with
    | some a, some b =>
      let r := goHexDecodeE rest
      ((a * 16 + b) :: r.1, r.2)
    | _, _ => ([], false)

/-- The byte result of `hex.DecodeString` when the caller discards the
error, as `extractTimeAndHash` does (`s0hashB, _ = hex.DecodeString(...)`). -/
def goHexDecode (s : List Nat) : List Nat := (goHexDecodeE s).1

/-- Whether a byte is a hexadecimal digit. -/
def isHexDigit (c : Nat) : Bool := (fromHexChar c).isSome

/-- Lowercase hex digit byte of a value below 16, as Go `%x` formatting and
`hex.EncodeToString` produce. -/
def hexDigit (d : Nat) : Nat := if d < 10 then 48 + d else 87 + d

/-- Lowercase hex encoding of a byte list (Go `hex.EncodeToString` / `%x`). -/
def hexEncode (bs : List Nat) : List Nat :=
  (bs.map (fun b => [hexDigit (b / 16), hexDigit (b % 16)])).flatten

/-- Byte index of the first comma in a byte string, `strings.IndexRune(s, ',')`
with `none` in place of `-1`. -/
def indexOfComma : List Nat → Option Nat
  | [] => none
  | b :: rest => if b = 44 then some 0 else (indexOfComma rest).map (· + 1)

/-- Go string slicing `s[lo:hi]`: defined when `lo ≤ hi ≤ len s`, otherwise
a runtime panic, modelled as `none`. -/
def goSlice (l : List Nat) (lo hi : Nat) : Option (List Nat) :=
  if lo ≤ hi ∧ hi ≤ l.length then some ((l.take hi).drop lo) else none

/-- The signature-header parser `extractTimeAndHash`. Mirrors the Go source
statement by statement: empty header and first comma at index `< 1` return
`("", nil)`; then `time = headerValue[2:commaIDX]` is sliced (this slice
panics, `none`, when the comma is at index 1); then a header shorter than
`commaIDX+4` returns `("", nil)`; otherwise the hash text after the assumed
`,s0=` is hex-decoded with the error ignored. -/
def extractTimeAndHash (headerValue : List Nat) : Option (List Nat × List Nat) :=
  if headerValue.length = 0 then some ([], []) else
  match indexOfComma headerValue with
  | none => some ([], [])
  | some commaIDX =>
    if commaIDX < 1 then some ([], []) else
    match goSlice headerValue 2 commaIDX with
    | none => none
    | some time =>
      if headerValue.length < commaIDX + 4 then some ([], [])
      else some (time, goHexDecode (headerValue.drop (commaIDX + 4)))

/-- The construction-time phase of `ValidateWebhook`: hex-decode
`Sign2HMACKey`; a decode error aborts construction (`none`), otherwise the
middleware is installed with the decoded key. -/
def validateWebhookKey (sign2HMACKey : List Nat) : Option (List Nat) :=
  let r := goHexDecodeE sign2HMACKey
  if r.2 then some r.1 else none

/-- The error kinds the middleware can hand to the error responder:
`ErrWebhookMissingSignature`, the ad-hoc `"ValidateWebhook: copy failed"`
error, and `ErrWebhookMismatchSignature`. -/
inductive WebhookErr
  | missingSignature
  | copyFailed
  | mismatchSignature
deriving DecidableEq, Repr

/-- The request body as the downstream handler would observe it:
either the untouched original stream or the replayed buffered copy. -/
inductive BodyState
  | original
  | replaced (buf : List Nat)
deriving DecidableEq, Repr

/-- An inbound request: the `Datatrans-Signature` header value and the
outcome draining the original body would have (`Except.error` models an
`io.Copy` failure, `Except.ok` the drained bytes). -/
structure Request where
  header : List Nat
  body : Except Unit (List Nat)
deriving Repr

/-- Observable effects of one run of the middleware handler:
which body (if any) the downstream handler was invoked with, which error
(if any) the error responder was invoked with, the request body left in
place, and how many times the middleware closed the original body. -/
structure Trace where
  downstream : Option (List Nat)
  errorCall : Option WebhookErr
  finalBody : BodyState
  closes : Nat
deriving DecidableEq, Repr

/-- One run of the handler `ValidateWebhook` installs, as a trace of its
observable effects; `none` is a panic (neither handler runs). Mirrors the
Go handler: parse the header; on empty timestamp or empty hash invoke the
error responder with `ErrWebhookMissingSignature` (the body is not touched);
otherwise drain the body into the HMAC (seeded with the timestamp bytes) and
a buffer — a copy failure closes the body and invokes the error responder;
on success the body is closed and replaced by the buffer unconditionally,
then `hmac.Equal` decides between the downstream handler and the error
responder with `ErrWebhookMismatchSignature`. -/
def serveTrace (key : List Nat) (r : Request) : Option Trace :=
  match extractTimeAndHash r.header with
  | none => none
  | some (tm, s0) =>
    if tm = [] ∨ s0 = [] then
      some ⟨none, some .missingSignature, .original, 0⟩
    else
      match r.body with
      | .error _ => some ⟨none, some .copyFailed, .original, 1⟩
      | .ok body =>
        if constantTimeCompare (hmacSha256 key (tm ++ body)) s0 then
          some ⟨some body, none, .replaced body, 1⟩
        else
          some ⟨none, some .mismatchSignature, .replaced body, 1⟩

/-- The verifier of §4.2 in isolation, exactly as the handler computes it:
`hmac.Equal(HMAC-SHA-256(key, timestamp ++ body), claimedHash)`. -/
def verifyWebhookSig (key tm body claimedHash : List Nat) : Bool :=
  constantTimeCompare (hmacSha256 key (tm ++ body)) claimedHash

/-- Serialization of a timestamp and a hex-encoded hash in the wire format
`t=<timestamp>,s0=<hex>`, as the spec round-trip property and the test
fixture (`fmt.Sprintf("t=%s,s0=%x", ...)`) build it. -/
def mkHeader (tm s0hex : List Nat) : List Nat :=
  [116, 61] ++ tm ++ [44, 115, 48, 61] ++ s0hex

/-- ASCII bytes of a string literal, for readable concrete inputs. -/
def strB (s : String) : List Nat := s.data.map Char.toNat

/-- Bytes of the JSON body used by the repository test
`TestValidateWebhook` (a transactionId object). -/
def datatransTestBody : List Nat :=
  [123, 34, 116, 114, 97, 110, 115, 97, 99, 116, 105, 111, 110, 73, 100, 34, 58, 32, 34,
   50, 49, 48, 50, 49, 53, 49, 48, 51, 48, 52, 50, 49, 52, 56, 53, 48, 49, 34, 125]

/-- The longest run of full byte pairs of hexadecimal digits at the front of
a byte string: the part of a hash token that `hex.DecodeString` manages to
decode before reporting its error. Used to state the amended claim about
hex-decode failures; not part of the Go source. -/
def validHexPairs : List Nat → List Nat
  | p :: q :: rest =>
    match fromHexChar p, fromHexChar q with
    | some _, some _ => p :: q :: validHexPairs rest
    | _, _ => []
  | _ => []

/-- Disjunction of bits is zero exactly when both operands are zero. -/
theorem lor_eq_zero (a b : Nat) : a ||| b = 0 ↔ a = 0 ∧ b = 0 := by
  constructor
  · intro h
    have ha : ∀ i, a.testBit i = false ∧ b.testBit i = false := by
      intro i
      have h2 := congrArg (fun n => n.testBit i) h
      simp only [Nat.testBit_or, Nat.zero_testBit, Bool.or_eq_false_iff] at h2
      exact h2
    exact ⟨Nat.eq_of_testBit_eq (fun i => by rw [(ha i).1, Nat.zero_testBit]),
           Nat.eq_of_testBit_eq (fun i => by rw [(ha i).2, Nat.zero_testBit])⟩
  · rintro ⟨rfl, rfl⟩; rfl

/-- The comparison loop runs once per byte position of the shorter operand:
its iteration count is independent of the byte values. -/
theorem ctcLoop_snd : ∀ (x y : List Nat) (v : Nat),
    (ctcLoop x y v).2 = min x.length y.length
  | [], [], _ => rfl
  | [], _ :: _, _ => rfl
  | _ :: _, [], _ => rfl
  | a :: x, b :: y, v => by
    simp only [ctcLoop, ctcLoop_snd x y, List.length_cons]
    omega

/-- The accumulated OR of XORs is zero exactly when the accumulator started
at zero and the two operands agree byte for byte. -/
theorem ctcLoop_fst_zero_iff : ∀ (x y : List Nat) (v : Nat),
    x.length = y.length → ((ctcLoop x y v).1 = 0 ↔ v = 0 ∧ x = y)
  | [], [], v => fun _ => by simp [ctcLoop]
  | [], _ :: _, _ => fun h => absurd h (by simp)
  | _ :: _, [], _ => fun h => absurd h (by simp)
  | a :: x, b :: y, v => fun h => by
    have hlen : x.length = y.length := by
      simpa using h
    simp only [ctcLoop]
    rw [ctcLoop_fst_zero_iff x y _ hlen, lor_eq_zero, Nat.xor_eq_zero]
    constructor
    · rintro ⟨⟨rfl, rfl⟩, rfl⟩; exact ⟨rfl, rfl⟩
    · rintro ⟨rfl, hc⟩
      obtain ⟨rfl, rfl⟩ := by simpa using hc
      exact ⟨⟨rfl, rfl⟩, rfl⟩

/-- The constant-time comparison is an equality test on byte lists. -/
theorem constantTimeCompare_eq_iff (x y : List Nat) :
    constantTimeCompare x y = true ↔ x = y := by
  unfold constantTimeCompare constantTimeCompareT
  by_cases h : x.length = y.length
  · rw [if_pos h]
    show ((ctcLoop x y 0).1 == 0) = true ↔ x = y
    rw [beq_iff_eq, ctcLoop_fst_zero_iff x y 0 h]
    constructor
    · rintro ⟨-, rfl⟩; rfl
    · rintro rfl; exact ⟨rfl, rfl⟩
  · rw [if_neg h]
    constructor
    · intro hf; exact absurd hf (by simp)
    · rintro rfl; exact absurd rfl h

/-- Values returned by `fromHexChar` are nibbles. -/
theorem fromHexChar_lt (c d : Nat) (h : fromHexChar c = some d) : d < 16 := by
  unfold fromHexChar at h
  split at h
  · cases h; omega
  · split at h
    · cases h; omega
    · split at h
      · cases h; omega
      · cases h

/-- Go hex-decoding inverts the lowercase hex digit of a nibble. -/
theorem fromHexChar_hexDigit (d : Nat) (h : d < 16) :
    fromHexChar (hexDigit d) = some d := by
  interval_cases d <;> rfl

/-- Every byte produced by Go hex-decoding is below 256. -/
theorem goHexDecode_lt256 : ∀ (s : List Nat) (b : Nat), b ∈ goHexDecode s → b < 256
  | [], b => by intro h; cases h
  | [_], b => by intro h; cases h
  | p :: q :: rest, b => by
    intro hmem
    unfold goHexDecode goHexDecodeE at hmem
    rcases hp : fromHexChar p with - | a <;> rcases hq : fromHexChar q with - | c <;>
      simp only [hp, hq] at hmem
    · cases hmem
    · cases hmem
    · cases hmem
    · rcases List.mem_cons.mp hmem with rfl | htail
      · have ha := fromHexChar_lt p _ hp
        have hc := fromHexChar_lt q _ hq
        omega
      · exact goHexDecode_lt256 rest b htail

/-- Hex encoding prepends two digit bytes per input byte. -/
theorem hexEncode_cons (b : Nat) (rest : List Nat) :
    hexEncode (b :: rest) = hexDigit (b / 16) :: hexDigit (b % 16) :: hexEncode rest := rfl

/-- Hex-decoding succeeds on, and inverts, the lowercase hex encoding of any
list of bytes. -/
theorem goHexDecodeE_encode : ∀ (bs : List Nat), (∀ b ∈ bs, b < 256) →
    goHexDecodeE (hexEncode bs) = (bs, true)
  | [], _ => rfl
  | b :: rest, hlt => by
    have hb : b < 256 := hlt b (List.mem_cons_self b rest)
    have hd1 : fromHexChar (hexDigit (b / 16)) = some (b / 16) :=
      fromHexChar_hexDigit _ (by omega)
    have hd2 : fromHexChar (hexDigit (b % 16)) = some (b % 16) :=
      fromHexChar_hexDigit _ (by omega)
    have ih := goHexDecodeE_encode rest (fun c hc => hlt c (List.mem_cons_of_mem b hc))
    rw [hexEncode_cons]
    simp only [goHexDecodeE, hd1, hd2, ih]
    have hsplit : b / 16 * 16 + b % 16 = b := by omega
    rw [hsplit]

/-- Hex-decoding with the error discarded inverts hex encoding. -/
theorem goHexDecode_encode (bs : List Nat) (h : ∀ b ∈ bs, b < 256) :
    goHexDecode (hexEncode bs) = bs := by
  unfold goHexDecode
  rw [goHexDecodeE_encode bs h]

/-- The hex-decode error flag is up exactly for even-length all-hex input. -/
theorem goHexDecodeE_ok_eq : ∀ (s : List Nat),
    (goHexDecodeE s).2 = (decide (s.length % 2 = 0) && s.all isHexDigit)
  | [] => rfl
  | [c] => by simp [goHexDecodeE, List.all_cons]
  | p :: q :: rest => by
    have hmod : (rest.length + 1 + 1) % 2 = rest.length % 2 := by omega
    rcases hp : fromHexChar p with - | a
    · simp [goHexDecodeE, hp, isHexDigit, List.all_cons]
    · rcases hq : fromHexChar q with - | b
      · simp [goHexDecodeE, hp, hq, isHexDigit, List.all_cons]
      · simp only [goHexDecodeE, hp, hq, List.all_cons, List.length_cons, hmod,
          isHexDigit, Option.isSome_some, Bool.true_and]
        exact goHexDecodeE_ok_eq rest

/-- The valid-pair part is a left factor of the token. -/
theorem validHexPairs_append : ∀ (s : List Nat),
    validHexPairs s ++ s.drop (validHexPairs s).length = s
  | [] => rfl
  | [c] => rfl
  | p :: q :: rest => by
    rcases hp : fromHexChar p with - | a
    · simp [validHexPairs, hp]
    · rcases hq : fromHexChar q with - | b
      · simp [validHexPairs, hp, hq]
      · simp only [validHexPairs, hp, hq, List.length_cons, List.drop_succ_cons,
          List.cons_append]
        rw [validHexPairs_append rest]

/-- The valid-pair part of a token decodes without error. -/
theorem validHexPairs_ok : ∀ (s : List Nat), (goHexDecodeE (validHexPairs s)).2 = true
  | [] => rfl
  | [c] => rfl
  | p :: q :: rest => by
    rcases hp : fromHexChar p with - | a
    · simp [validHexPairs, hp, goHexDecodeE]
    · rcases hq : fromHexChar q with - | b
      · simp [validHexPairs, hp, hq, goHexDecodeE]
      · simp only [validHexPairs, hp, hq, goHexDecodeE]
        exact validHexPairs_ok rest

/-- Discarding the hex-decode error keeps exactly the decode of the
valid-pair part of the token. -/
theorem goHexDecode_eq_validHexPairs : ∀ (s : List Nat),
    goHexDecode s = goHexDecode (validHexPairs s)
  | [] => rfl
  | [c] => rfl
  | p :: q :: rest => by
    rcases hp : fromHexChar p with - | a
    · simp [goHexDecode, goHexDecodeE, validHexPairs, hp]
    · rcases hq : fromHexChar q with - | b
      · simp [goHexDecode, goHexDecodeE, validHexPairs, hp, hq]
      · simp only [goHexDecode, goHexDecodeE, validHexPairs, hp, hq]
        rw [← goHexDecode, ← goHexDecode, goHexDecode_eq_validHexPairs rest]

/-- A comma index returned by the search is inside the string. -/
theorem indexOfComma_lt_length : ∀ (h : List Nat) (c : Nat),
    indexOfComma h = some c → c < h.length
  | [], c => by intro hx; cases hx
  | b :: rest, c => by
    intro hx
    unfold indexOfComma at hx
    by_cases hb : b = 44
    · rw [if_pos hb] at hx
      cases hx
      simp
    · rw [if_neg hb] at hx
      rcases hr : indexOfComma rest with - | c0
      · rw [hr] at hx; cases hx
      · rw [hr] at hx
        cases hx
        have := indexOfComma_lt_length rest c0 hr
        simp only [List.length_cons]
        omega

/-- The first comma of `l ++ "," ++ r` sits right after a comma-free `l`. -/
theorem indexOfComma_append : ∀ (l r : List Nat), 44 ∉ l →
    indexOfComma (l ++ 44 :: r) = some l.length
  | [], r => fun _ => by simp [indexOfComma]
  | b :: l, r => fun hmem => by
    have hb : b ≠ 44 := fun hb => hmem (hb ▸ List.mem_cons_self b l)
    have hl : 44 ∉ l := fun hl => hmem (List.mem_cons_of_mem b hl)
    have ih := indexOfComma_append l r hl
    show (if b = 44 then some 0 else (indexOfComma (l ++ 44 :: r)).map (· + 1)) =
      some (b :: l).length
    rw [if_neg hb, ih]
    rfl

/-- Everything before the first comma is not a comma. -/
theorem indexOfComma_take : ∀ (h : List Nat) (c : Nat),
    indexOfComma h = some c → 44 ∉ h.take c
  | [], c => by intro hx; cases hx
  | b :: rest, c => by
    intro hx
    unfold indexOfComma at hx
    by_cases hb : b = 44
    · rw [if_pos hb] at hx
      cases hx
      intro hm; cases hm
    · rw [if_neg hb] at hx
      rcases hr : indexOfComma rest with - | c0
      · rw [hr] at hx; cases hx
      · rw [hr] at hx
        cases hx
        intro hm
        rcases List.mem_cons.mp (by simpa using hm) with hm1 | hm2
        · exact hb hm1.symm
        · exact indexOfComma_take rest c0 hr hm2

/-- Parsing the canonical serialization `t=<tm>,s0=<s>` of a comma-free
timestamp returns the timestamp and the hex-decode of the hash text. -/
theorem parse_mkHeader (tm s : List Nat) (hcm : 44 ∉ tm) :
    extractTimeAndHash (mkHeader tm s) = some (tm, goHexDecode s) := by
  have hpre : 44 ∉ [116, 61] ++ tm := by
    intro hm
    rcases List.mem_append.mp hm with hm1 | hm2
    · simp at hm1
    · exact hcm hm2
  have hidx : indexOfComma (mkHeader tm s) = some (tm.length + 2) := by
    have h1 : mkHeader tm s = ([116, 61] ++ tm) ++ 44 :: ([115, 48, 61] ++ s) := by
      simp [mkHeader]
    have h2 : ([116, 61] ++ tm).length = tm.length + 2 := by
      simp only [List.length_append, List.length_cons, List.length_nil]
      omega
    rw [h1, indexOfComma_append _ _ hpre, h2]
  have hlen : (mkHeader tm s).length = tm.length + 6 + s.length := by
    simp only [mkHeader, List.length_append, List.length_cons, List.length_nil]
    omega
  have hne : ¬ (mkHeader tm s).length = 0 := by omega
  have hlt : ¬ tm.length + 2 < 1 := by omega
  unfold extractTimeAndHash
  rw [if_neg hne]
  simp only [hidx]
  rw [if_neg hlt]
  have hslice : goSlice (mkHeader tm s) 2 (tm.length + 2) = some tm := by
    unfold goSlice
    rw [if_pos (by constructor <;> omega)]
    have h1 : mkHeader tm s = ([116, 61] ++ tm) ++ ([44, 115, 48, 61] ++ s) := by
      simp [mkHeader]
    have h2 : ([116, 61] ++ tm).length = tm.length + 2 := by
      simp only [List.length_append, List.length_cons, List.length_nil]
      omega
    rw [h1, ← h2, List.take_left]
    rfl
  simp only [hslice]
  have hge : ¬ (mkHeader tm s).length < tm.length + 2 + 4 := by omega
  rw [if_neg hge]
  have hdrop : (mkHeader tm s).drop (tm.length + 2 + 4) = s := by
    have h1 : mkHeader tm s = ([116, 61] ++ tm ++ [44, 115, 48, 61]) ++ s := by
      simp [mkHeader]
    have h2 : ([116, 61] ++ tm ++ [44, 115, 48, 61]).length = tm.length + 2 + 4 := by
      simp only [List.length_append, List.length_cons, List.length_nil]
      omega
    rw [h1, ← h2, List.drop_left]
  rw [hdrop]

/-- Shape of every successful parse that reaches the hash-decoding branch:
the comma index is at least 2, the timestamp is the slice `h[2:c]` and is
comma-free, and the hash is the decode of the text after `,s0=`. -/
theorem parse_success_shape (h tm s0 : List Nat)
    (hp : extractTimeAndHash h = some (tm, s0)) (htm : tm ≠ []) :
    ∃ c, indexOfComma h = some c ∧ 2 ≤ c ∧ c + 4 ≤ h.length ∧
      tm = (h.take c).drop 2 ∧ s0 = goHexDecode (h.drop (c + 4)) ∧ 44 ∉ tm := by
  unfold extractTimeAndHash at hp
  by_cases hlen : h.length = 0
  · rw [if_pos hlen] at hp
    cases hp
    exact absurd rfl htm
  · rw [if_neg hlen] at hp
    rcases hc : indexOfComma h with - | c
    · simp only [hc] at hp; cases hp; exact absurd rfl htm
    · simp only [hc] at hp
      by_cases hc1 : c < 1
      · rw [if_pos hc1] at hp; cases hp; exact absurd rfl htm
      · rw [if_neg hc1] at hp
        rcases hs : goSlice h 2 c with - | time
        · simp only [hs] at hp; cases hp
        · simp only [hs] at hp
          by_cases hlt : h.length < c + 4
          · rw [if_pos hlt] at hp; cases hp; exact absurd rfl htm
          · rw [if_neg hlt] at hp
            cases hp
            unfold goSlice at hs
            by_cases hok : 2 ≤ c ∧ c ≤ h.length
            · rw [if_pos hok] at hs
              cases hs
              refine ⟨c, rfl, hok.1, by omega, rfl, rfl, ?_⟩
              intro hm
              exact indexOfComma_take h c hc (List.mem_of_mem_drop hm)
            · rw [if_neg hok] at hs; cases hs

/-- Bytes of every SHA-256 digest are below 256. -/
theorem sha256_lt256 (m : List Nat) : ∀ b ∈ sha256 m, b < 256 := by
  intro b hb
  unfold sha256 at hb
  rcases List.mem_flatten.mp hb with ⟨l, hl, hbl⟩
  rcases List.mem_map.mp hl with ⟨w, -, rfl⟩
  rcases List.mem_map.mp hbl with ⟨s, -, rfl⟩
  exact Nat.mod_lt _ (by omega)

/-- Bytes of every HMAC-SHA-256 digest are below 256. -/
theorem hmacSha256_lt256 (key msg : List Nat) : ∀ b ∈ hmacSha256 key msg, b < 256 :=
  fun b hb => sha256_lt256 _ b hb

/-- C1: for every configured secret key, parsed timestamp, body and claimed
hash, the verifier accepts — and the middleware forwards to downstream —
exactly when the claimed hash equals, byte for byte at full length, the
HMAC-SHA-256 digest of the timestamp bytes immediately followed by the body
bytes (no separator) under the secret key. -/
theorem verify_accepts_iff_hmac_digest (key tm body s0 : List Nat) (r : Request)
    (hp : extractTimeAndHash r.header = some (tm, s0)) (htm : tm ≠ []) (hs0 : s0 ≠ [])
    (hb : r.body = Except.ok body) :
    (verifyWebhookSig key tm body s0 = true ↔ s0 = hmacSha256 key (tm ++ body)) ∧
    (serveTrace key r = some ⟨some body, none, BodyState.replaced body, 1⟩ ↔
      s0 = hmacSha256 key (tm ++ body)) := by
  have hv : verifyWebhookSig key tm body s0 = true ↔ s0 = hmacSha256 key (tm ++ body) := by
    unfold verifyWebhookSig
    rw [constantTimeCompare_eq_iff]
    exact eq_comm
  refine ⟨hv, ?_⟩
  unfold serveTrace
  simp only [hp]
  rw [if_neg (not_or.mpr ⟨htm, hs0⟩)]
  simp only [hb]
  by_cases hcmp : constantTimeCompare (hmacSha256 key (tm ++ body)) s0 = true
  · rw [if_pos hcmp]
    constructor
    · intro _
      exact ((constantTimeCompare_eq_iff _ _).mp hcmp).symm
    · intro _
      rfl
  · rw [if_neg hcmp]
    constructor
    · intro he
      simp at he
    · intro heq
      exact absurd ((constantTimeCompare_eq_iff _ _).mpr heq.symm) hcmp

/-- C1 witness: with key `[1,2]`, timestamp `"1"`, body `[50,51]` and the
correct digest as claimed hash, the middleware forwards. -/
theorem verify_accepts_iff_hmac_digest_witness :
    serveTrace [1, 2]
      ⟨mkHeader [49] (hexEncode (hmacSha256 [1, 2] ([49] ++ [50, 51]))), Except.ok [50, 51]⟩ =
      some ⟨some [50, 51], none, BodyState.replaced [50, 51], 1⟩ :=
  ((verify_accepts_iff_hmac_digest [1, 2] [49] [50, 51]
      (hmacSha256 [1, 2] ([49] ++ [50, 51]))
      ⟨mkHeader [49] (hexEncode (hmacSha256 [1, 2] ([49] ++ [50, 51]))), Except.ok [50, 51]⟩
      (by
        show extractTimeAndHash (mkHeader [49] (hexEncode (hmacSha256 [1, 2] ([49] ++ [50, 51])))) =
          some ([49], hmacSha256 [1, 2] ([49] ++ [50, 51]))
        rw [parse_mkHeader _ _ (by decide),
          goHexDecode_encode _ (hmacSha256_lt256 _ _)])
      (by decide) (by decide) rfl).2).mpr rfl

/-- C2: the comparison the middleware uses is fixed-time — its loop
iteration count is a function of the operand lengths only (in particular it
does not depend on the position of the first differing byte) — it returns
false for operands of different lengths, and it is exact equality. -/
theorem constant_time_compare_fixed_time (x y u v : List Nat)
    (hx : x.length = u.length) (hy : y.length = v.length) :
    (constantTimeCompareT x y).2 = (constantTimeCompareT u v).2 ∧
    (x.length ≠ y.length → constantTimeCompare x y = false) ∧
    (constantTimeCompare x y = true ↔ x = y) := by
  refine ⟨?_, ?_, constantTimeCompare_eq_iff x y⟩
  · unfold constantTimeCompareT
    by_cases h : x.length = y.length
    · rw [if_pos h, if_pos (by omega)]
      show (ctcLoop x y 0).2 = (ctcLoop u v 0).2
      rw [ctcLoop_snd, ctcLoop_snd, hx, hy]
    · rw [if_neg h, if_neg (by omega)]
  · intro h
    unfold constantTimeCompare constantTimeCompareT
    rw [if_neg h]

/-- C2 witness: two pairs of equal-length operands with different contents
take the same number of comparison steps, and the comparison decides
equality. -/
theorem constant_time_compare_fixed_time_witness :
    (constantTimeCompareT [0, 1] [0, 2]).2 = (constantTimeCompareT [5, 5] [6, 6]).2 ∧
    (([0, 1] : List Nat).length ≠ ([0, 2] : List Nat).length →
      constantTimeCompare [0, 1] [0, 2] = false) ∧
    (constantTimeCompare [0, 1] [0, 2] = true ↔ [0, 1] = [0, 2]) :=
  constant_time_compare_fixed_time [0, 1] [0, 2] [5, 5] [6, 6] rfl rfl

/-- C3 counterexample: on the header `a,s0=ff` (first comma at index 1) the
handler panics in the parser, so neither the downstream handler nor the
error responder is invoked — refuting that exactly one runs per request. -/
theorem serve_panics_neither_handler_runs :
    serveTrace [] ⟨strB "a,s0=ff", Except.ok []⟩ = none := by decide

/-- C3 amended: for every request whose header the parser survives
(returns rather than panics), exactly one of the downstream handler and the
error responder runs: downstream exactly when the timestamp and hash are
non-empty, the drain succeeded and the digest matches; the missing-signature
error exactly when the timestamp or hash is empty; the mismatch error
exactly when both are non-empty, the drain succeeded and the digest
differs. -/
theorem serve_exactly_one_handler (key : List Nat) (r : Request) (tm s0 : List Nat) (t : Trace)
    (hp : extractTimeAndHash r.header = some (tm, s0)) (ht : serveTrace key r = some t) :
    (t.downstream.isSome = true ↔ t.errorCall = none) ∧
    (t.errorCall = some WebhookErr.missingSignature ↔ (tm = [] ∨ s0 = [])) ∧
    (t.errorCall = some WebhookErr.mismatchSignature ↔
      (tm ≠ [] ∧ s0 ≠ [] ∧ ∃ body, r.body = Except.ok body ∧
        s0 ≠ hmacSha256 key (tm ++ body))) ∧
    (t.downstream.isSome = true ↔
      (tm ≠ [] ∧ s0 ≠ [] ∧ ∃ body, r.body = Except.ok body ∧
        s0 = hmacSha256 key (tm ++ body))) := by
  unfold serveTrace at ht
  simp only [hp] at ht
  by_cases hempty : tm = [] ∨ s0 = []
  · rw [if_pos hempty] at ht
    cases ht
    refine ⟨by simp, by simp [hempty], ?_, ?_⟩
    · constructor
      · intro he; simp at he
      · rintro ⟨h1, h2, -⟩
        rcases hempty with he | he
        · exact absurd he h1
        · exact absurd he h2
    · constructor
      · intro he; simp at he
      · rintro ⟨h1, h2, -⟩
        rcases hempty with he | he
        · exact absurd he h1
        · exact absurd he h2
  · rw [if_neg hempty] at ht
    have htm : tm ≠ [] := fun he => hempty (Or.inl he)
    have hs0 : s0 ≠ [] := fun he => hempty (Or.inr he)
    cases hbody : r.body with
    | error u =>
      simp only [hbody] at ht
      cases ht
      refine ⟨by simp, ?_, ?_, ?_⟩
      · constructor
        · intro he; simp at he
        · intro he; exact absurd he hempty
      · constructor
        · intro he; simp at he
        · rintro ⟨-, -, body, hb, -⟩
          cases hb
      · constructor
        · intro he; simp at he
        · rintro ⟨-, -, body, hb, -⟩
          cases hb
    | ok body =>
      simp only [hbody] at ht
      by_cases hcmp : constantTimeCompare (hmacSha256 key (tm ++ body)) s0 = true
      · rw [if_pos hcmp] at ht
        cases ht
        have heq : s0 = hmacSha256 key (tm ++ body) :=
          ((constantTimeCompare_eq_iff _ _).mp hcmp).symm
        refine ⟨by simp, ?_, ?_, ?_⟩
        · constructor
          · intro he; simp at he
          · intro he; exact absurd he hempty
        · constructor
          · intro he; simp at he
          · rintro ⟨-, -, body2, hb2, hne⟩
            cases hb2
            exact absurd heq hne
        · constructor
          · intro _
            exact ⟨htm, hs0, body, rfl, heq⟩
          · intro _
            simp
      · rw [if_neg hcmp] at ht
        cases ht
        have hne : s0 ≠ hmacSha256 key (tm ++ body) := fun heq =>
          absurd ((constantTimeCompare_eq_iff _ _).mpr heq.symm) hcmp
        refine ⟨by simp, ?_, ?_, ?_⟩
        · constructor
          · intro he; simp at he
          · intro he; exact absurd he hempty
        · constructor
          · intro _
            exact ⟨htm, hs0, body, rfl, hne⟩
          · intro _; rfl
        · constructor
          · intro he; simp at he
          · rintro ⟨-, -, body2, hb2, heq2⟩
            cases hb2
            exact absurd heq2 hne

/-- C3 amended witness: the request with header `t=,s0=` parses to an empty
pair and is dispatched to the error responder with the missing-signature
error, downstream not invoked. -/
theorem serve_exactly_one_handler_witness :
    ((Trace.mk none (some WebhookErr.missingSignature) BodyState.original 0).downstream.isSome =
        true ↔
      (Trace.mk none (some WebhookErr.missingSignature) BodyState.original 0).errorCall = none) ∧
    ((Trace.mk none (some WebhookErr.missingSignature) BodyState.original 0).errorCall =
        some WebhookErr.missingSignature ↔ (([] : List Nat) = [] ∨ ([] : List Nat) = [])) ∧
    ((Trace.mk none (some WebhookErr.missingSignature) BodyState.original 0).errorCall =
        some WebhookErr.mismatchSignature ↔
      (([] : List Nat) ≠ [] ∧ ([] : List Nat) ≠ [] ∧ ∃ body,
        (Request.mk (strB "t=,s0=") (Except.ok [])).body = Except.ok body ∧
        ([] : List Nat) ≠ hmacSha256 [] ([] ++ body))) ∧
    ((Trace.mk none (some WebhookErr.missingSignature) BodyState.original 0).downstream.isSome =
        true ↔
      (([] : List Nat) ≠ [] ∧ ([] : List Nat) ≠ [] ∧ ∃ body,
        (Request.mk (strB "t=,s0=") (Except.ok [])).body = Except.ok body ∧
        ([] : List Nat) = hmacSha256 [] ([] ++ body))) :=
  serve_exactly_one_handler [] ⟨strB "t=,s0=", Except.ok []⟩ [] []
    ⟨none, some WebhookErr.missingSignature, BodyState.original, 0⟩ (by decide) (by decide)

/-- C4: for every request that passes the header parse with non-empty
timestamp and hash and whose drain succeeds, the request body ends up
replaced by the buffered copy of exactly the drained bytes on both sides of
the verification decision, and downstream (when invoked) sees exactly those
bytes. -/
theorem body_replaced_before_decision (key : List Nat) (r : Request) (tm s0 body : List Nat)
    (t : Trace) (hp : extractTimeAndHash r.header = some (tm, s0)) (htm : tm ≠ [])
    (hs0 : s0 ≠ []) (hb : r.body = Except.ok body) (ht : serveTrace key r = some t) :
    t.finalBody = BodyState.replaced body ∧
    (t.downstream = none ∨ t.downstream = some body) := by
  unfold serveTrace at ht
  simp only [hp] at ht
  rw [if_neg (not_or.mpr ⟨htm, hs0⟩)] at ht
  simp only [hb] at ht
  by_cases hcmp : constantTimeCompare (hmacSha256 key (tm ++ body)) s0 = true
  · rw [if_pos hcmp] at ht
    cases ht
    exact ⟨rfl, Or.inr rfl⟩
  · rw [if_neg hcmp] at ht
    cases ht
    exact ⟨rfl, Or.inl rfl⟩

/-- C4 witness: a request with a well-formed header whose one-byte claimed
hash cannot match leaves the replayed body `[7]` attached on the rejecting
branch as well. -/
theorem body_replaced_before_decision_witness :
    (Trace.mk none (some WebhookErr.mismatchSignature) (BodyState.replaced [7]) 1).finalBody =
      BodyState.replaced [7] ∧
    ((Trace.mk none (some WebhookErr.mismatchSignature) (BodyState.replaced [7]) 1).downstream =
        none ∨
      (Trace.mk none (some WebhookErr.mismatchSignature) (BodyState.replaced [7]) 1).downstream =
        some [7]) :=
  body_replaced_before_decision [] ⟨strB "t=1,s0=ff", Except.ok [7]⟩ [49] [255] [7]
    ⟨none, some WebhookErr.mismatchSignature, BodyState.replaced [7], 1⟩
    (by decide) (by decide) (by decide) rfl (by decide)

/-- C5: evaluation of the parser at the failing input `a,s0=ff` — the first
comma at index 1 makes the Go slice `headerValue[2:1]` panic (slice bounds
out of range), modelled as `none`: the parser is not total. -/
theorem extract_panics_on_comma_at_one :
    extractTimeAndHash (strB "a,s0=ff") = none := by decide

/-- C6 counterexample: the header `a,` has length 2, below its comma offset
1 plus 4, so the claim says the parser returns an empty pair; instead the
parser panics (the slice `[2:1]` is out of range) and returns nothing. -/
theorem extract_comma_at_one_no_return :
    extractTimeAndHash (strB "a,") ≠ some ([], []) := by decide

/-- C6 amended: for every header whose first comma is not at offset 1 (where
the parser panics instead), the fixed-offset rule holds exactly: empty
value, no comma, or comma at offset 0 give `("", empty)`; a value shorter
than the comma offset plus 4 gives `("", empty)`; otherwise the timestamp
is the substring from offset 2 to the comma taken unconditionally and the
hash is the error-ignoring hex-decode of the substring after the comma
offset plus 4; in particular `t=,s0=` yields the empty pair. -/
theorem extract_fixed_offset_rule (h : List Nat) (hc1 : indexOfComma h ≠ some 1) :
    extractTimeAndHash h =
      (match indexOfComma h with
       | none => some ([], [])
       | some c =>
         if c = 0 then some ([], [])
         else if h.length < c + 4 then some ([], [])
         else some ((h.take c).drop 2, goHexDecode (h.drop (c + 4)))) ∧
    extractTimeAndHash (strB "t=,s0=") = some ([], []) := by
  refine ⟨?_, by decide⟩
  by_cases hlen : h.length = 0
  · have hnil : h = [] := List.length_eq_zero.mp hlen
    subst hnil
    rfl
  · unfold extractTimeAndHash
    rw [if_neg hlen]
    rcases hc : indexOfComma h with - | c
    · rfl
    · have hcne : c ≠ 1 := fun he => hc1 (by rw [hc, he])
      by_cases hc0 : c < 1
      · have hz : c = 0 := by omega
        subst hz
        rfl
      · show (if c < 1 then some ([], []) else
          match goSlice h 2 c with
          | none => none
          | some time =>
            if h.length < c + 4 then some ([], [])
            else some (time, goHexDecode (h.drop (c + 4)))) =
          (if c = 0 then some ([], [])
           else if h.length < c + 4 then some ([], [])
           else some ((h.take c).drop 2, goHexDecode (h.drop (c + 4))))
        rw [if_neg hc0, if_neg (show ¬ c = 0 by omega)]
        have h2c : 2 ≤ c := by omega
        have hslice : goSlice h 2 c = some ((h.take c).drop 2) := by
          unfold goSlice
          rw [if_pos ⟨h2c, Nat.le_of_lt (indexOfComma_lt_length h c hc)⟩]
        simp only [hslice]

/-- C6 amended witness: on `t=1,s0=ff` the rule gives timestamp `1` and
hash `0xff`. -/
theorem extract_fixed_offset_rule_witness :
    extractTimeAndHash (strB "t=1,s0=ff") = some ([49], [255]) :=
  ((extract_fixed_offset_rule (strB "t=1,s0=ff") (by decide)).1).trans (by decide)

/-- C7 counterexample: the hash token `33zz` is not valid hexadecimal, yet
the parser returns the non-empty hash `[0x33]` (the bytes decoded before the
error), not an empty hash. -/
theorem extract_invalid_hex_nonempty_hash :
    (extractTimeAndHash (strB "t=1,s0=33zz")).map Prod.snd = some [51] ∧
    (goHexDecodeE (strB "33zz")).2 = false ∧
    some [51] ≠ some ([] : List Nat) :=
  ⟨by decide, by decide, by decide⟩

/-- C7 amended: for every header `t=<tm>,s0=<s>` whose hash token `s` is not
valid hexadecimal, the parser still returns silently, and the hash it
returns is the successful decode of the longest run of full hex-digit pairs
at the front of the token (so it is empty only when the token's first pair
is already invalid). -/
theorem extract_invalid_hex_valid_pairs (tm s : List Nat) (hcm : 44 ∉ tm)
    (_hs : (goHexDecodeE s).2 = false) :
    (goHexDecodeE (validHexPairs s)).2 = true ∧
    validHexPairs s ++ s.drop (validHexPairs s).length = s ∧
    extractTimeAndHash (mkHeader tm s) = some (tm, goHexDecode (validHexPairs s)) := by
  refine ⟨validHexPairs_ok s, validHexPairs_append s, ?_⟩
  rw [parse_mkHeader tm s hcm, goHexDecode_eq_validHexPairs]

/-- C7 amended witness: on the token `33zz` the parser returns the decode of
the valid part `33`. -/
theorem extract_invalid_hex_valid_pairs_witness :
    (goHexDecodeE (validHexPairs (strB "33zz"))).2 = true ∧
    validHexPairs (strB "33zz") ++
      (strB "33zz").drop (validHexPairs (strB "33zz")).length = strB "33zz" ∧
    extractTimeAndHash (mkHeader [49] (strB "33zz")) =
      some ([49], goHexDecode (validHexPairs (strB "33zz"))) :=
  extract_invalid_hex_valid_pairs [49] (strB "33zz") (by decide) (by decide)

/-- C8: whenever the parser returns a non-empty timestamp and non-empty
hash, serializing them as `t=<timestamp>,s0=<hex(hash)>` produces a header
the parser parses back to exactly the same pair. -/
theorem extract_roundtrip (h tm s0 : List Nat)
    (hp : extractTimeAndHash h = some (tm, s0)) (htm : tm ≠ []) (_hs0 : s0 ≠ []) :
    extractTimeAndHash (mkHeader tm (hexEncode s0)) = some (tm, s0) := by
  obtain ⟨c, hc, h2c, hc4, htm_eq, hs0_eq, hnc⟩ := parse_success_shape h tm s0 hp htm
  have hlt : ∀ b ∈ s0, b < 256 := by
    intro b hb
    rw [hs0_eq] at hb
    exact goHexDecode_lt256 _ b hb
  rw [parse_mkHeader tm _ hnc, goHexDecode_encode s0 hlt]

/-- C8 witness: the parse of `t=1,s0=ff` round-trips. -/
theorem extract_roundtrip_witness :
    extractTimeAndHash (mkHeader [49] (hexEncode [255])) = some ([49], [255]) :=
  extract_roundtrip (strB "t=1,s0=ff") [49] [255] (by decide) (by decide) (by decide)

/-- C9 counterexample: on the missing-signature branch (empty header) the
middleware performs zero closes of the original body, not exactly one. -/
theorem serve_missing_signature_no_close :
    (serveTrace [] ⟨[], Except.ok []⟩).map Trace.closes ≠ some 1 ∧
    (serveTrace [] ⟨[], Except.ok []⟩).map Trace.closes = some 0 :=
  ⟨by decide, by decide⟩

/-- C9 amended: the middleware closes the original body exactly once on the
body-read-failure, signature-mismatch and forwarding branches, and zero
times on the missing-signature branch. -/
theorem serve_close_discipline (key : List Nat) (r : Request) (t : Trace)
    (ht : serveTrace key r = some t) :
    (t.errorCall = some WebhookErr.missingSignature → t.closes = 0) ∧
    (t.errorCall ≠ some WebhookErr.missingSignature → t.closes = 1) := by
  unfold serveTrace at ht
  rcases hp : extractTimeAndHash r.header with - | p
  · simp only [hp] at ht
    cases ht
  · rcases p with ⟨tm, s0⟩
    simp only [hp] at ht
    by_cases hempty : tm = [] ∨ s0 = []
    · rw [if_pos hempty] at ht
      cases ht
      exact ⟨fun _ => rfl, fun hne => absurd rfl hne⟩
    · rw [if_neg hempty] at ht
      cases hbody : r.body with
      | error u =>
        simp only [hbody] at ht
        cases ht
        exact ⟨fun he => by simp at he, fun _ => rfl⟩
      | ok body =>
        simp only [hbody] at ht
        by_cases hcmp : constantTimeCompare (hmacSha256 key (tm ++ body)) s0 = true
        · rw [if_pos hcmp] at ht
          cases ht
          exact ⟨fun he => by simp at he, fun _ => rfl⟩
        · rw [if_neg hcmp] at ht
          cases ht
          exact ⟨fun he => by simp at he, fun _ => rfl⟩

/-- C9 amended witness: a failing drain on a signed request closes the body
exactly once. -/
theorem serve_close_discipline_witness :
    ((Trace.mk none (some WebhookErr.copyFailed) BodyState.original 1).errorCall =
        some WebhookErr.missingSignature →
      (Trace.mk none (some WebhookErr.copyFailed) BodyState.original 1).closes = 0) ∧
    ((Trace.mk none (some WebhookErr.copyFailed) BodyState.original 1).errorCall ≠
        some WebhookErr.missingSignature →
      (Trace.mk none (some WebhookErr.copyFailed) BodyState.original 1).closes = 1) :=
  serve_close_discipline [] ⟨strB "t=1,s0=ff", Except.error ()⟩
    ⟨none, some WebhookErr.copyFailed, BodyState.original, 1⟩ (by decide)

/-- C10: constructing the middleware with the empty hexadecimal secret-key
string succeeds and installs the empty HMAC key; construction fails exactly
when the configured string is not valid hexadecimal (odd length or a
non-hex character), never merely because the secret is absent or empty. -/
theorem construct_key_rejects_only_invalid_hex :
    validateWebhookKey [] = some [] ∧
    ∀ s : List Nat, validateWebhookKey s = none ↔
      ¬ (s.length % 2 = 0 ∧ ∀ c ∈ s, isHexDigit c = true) := by
  refine ⟨rfl, fun s => ?_⟩
  unfold validateWebhookKey
  by_cases hok : (goHexDecodeE s).2 = true
  · rw [if_pos hok]
    constructor
    · intro h; cases h
    · intro hn
      exfalso
      apply hn
      rw [goHexDecodeE_ok_eq] at hok
      simp only [Bool.and_eq_true, decide_eq_true_eq, List.all_eq_true] at hok
      exact hok
  · rw [if_neg hok]
    have hB : (goHexDecodeE s).2 = false := by
      revert hok
      cases (goHexDecodeE s).2 <;> simp
    constructor
    · intro _ hP
      have h1 : decide (s.length % 2 = 0) = true := decide_eq_true hP.1
      have h2 : s.all isHexDigit = true := List.all_eq_true.mpr hP.2
      rw [goHexDecodeE_ok_eq, h1, h2] at hB
      simp at hB
    · intro _; rfl

/-- C10 witness: the string `zz` is rejected at construction time. -/
theorem construct_key_rejects_only_invalid_hex_witness :
    validateWebhookKey (strB "zz") = none :=
  (construct_key_rejects_only_invalid_hex.2 (strB "zz")).mpr (by decide)

/-- The scenario of the repository test `TestValidateWebhook` evaluated in
the embedding: the configured hex string decodes to the raw secret key, and
the correctly signed request (digest over timestamp then JSON body) is
forwarded downstream with the body replayed. -/
theorem validateWebhook_test_vector :
    validateWebhookKey (strB "617364666173645e25405e26256661") =
      some (strB "asdfasd^%@^&%fa") ∧
    serveTrace (strB "asdfasd^%@^&%fa")
      ⟨mkHeader (strB "1559303131511")
         (hexEncode (hmacSha256 (strB "asdfasd^%@^&%fa")
            (strB "1559303131511" ++ datatransTestBody))),
       Except.ok datatransTestBody⟩ =
      some ⟨some datatransTestBody, none, BodyState.replaced datatransTestBody, 1⟩ :=
  ⟨by decide, by decide⟩

end Datatrans
